import Mathlib

/-!
Verification of the commitizen history-ingestion layer (`src/commitizen/git.py`)
and the convention-plugin contract (`src/commitizen/cz/base.py`).

The Python code is shallowly embedded: Python strings are Lean `String`s,
`str.split(sep)` / `str.strip()` / `"\n".join(...)` are modelled by executable
Lean functions below, exceptions raised while parsing are modelled by `Option`
(`none` = the operation raises), and the result record of the external process
runner is a structure holding captured stdout / stderr / exit status.
-/

/-- ASCII whitespace as recognised by Python's `str.strip()`
(space, tab, newline, carriage return, vertical tab, form feed). -/
def isPySpace (c : Char) : Bool :=
  c == ' ' || c == '\t' || c == '\n' || c == '\r' || c == '\x0b' || c == '\x0c'

/-- `str.strip()` on a character list: drop whitespace from both ends. -/
def pyStripCh (l : List Char) : List Char :=
  ((l.dropWhile isPySpace).reverse.dropWhile isPySpace).reverse

/-- Python `s.strip()`. -/
def pyStrip (s : String) : String :=
  ⟨pyStripCh s.data⟩

/-- Fuelled worker for Python `str.split(sep)` (non-empty `sep`): split on each
leftmost non-overlapping occurrence of `sep`.  The fuel is an upper bound on the
number of characters still to scan; it makes the recursion structural so that
the function reduces inside the kernel. -/
def pySplitChAux (sep : List Char) : List Char → Nat → List (List Char)
  | [], _ => [[]]
  | x :: xs, 0 => [x :: xs]
  | x :: xs, fuel+1 =>
    if sep.isPrefixOf (x :: xs) then
      [] :: pySplitChAux sep ((x :: xs).drop sep.length) fuel
    else
      match pySplitChAux sep xs fuel with
      | [] => [[x]]
      | p :: ps => (x :: p) :: ps

/-- Python `s.split(sep)`.  Python raises `ValueError` on an empty separator;
the code under verification only ever passes non-empty separators, and for
totality we return `[s]` in that unused case. -/
def pySplit (s sep : String) : List String :=
  if sep.data = [] then [s]
  else (pySplitChAux sep.data s.data s.data.length).map fun l => ⟨l⟩

/-- Python `sep.join(parts)`. -/
def pyJoin (sep : String) (parts : List String) : String :=
  String.intercalate sep parts

/-- Modelled from the spec (§4.1 Process Runner): the result record returned by
`cmd.run` — captured standard output, standard error, and exit status.  The
module `src/commitizen/cmd.py` is not part of the given sources; only the shape
of its result is needed, and it is taken from the spec's words. -/
structure Command where
  out : String
  err : String
  return_code : Int
deriving DecidableEq, Repr

/-- `GitCommit` record (`git.py`): revision, title, body, each stored stripped
by `__init__`. -/
structure GitCommit where
  rev : String
  title : String
  body : String
deriving DecidableEq, Repr

/-- `GitCommit.__init__`: every field is stripped before being stored. -/
def GitCommit.make (rev title body : String) : GitCommit :=
  ⟨pyStrip rev, pyStrip title, pyStrip body⟩

/-- `GitTag` record (`git.py`): name, revision, date, each stored stripped by
`__init__` (which takes them in the order `name, rev, date`). -/
structure GitTag where
  name : String
  rev : String
  date : String
deriving DecidableEq, Repr

/-- `GitTag.__init__`: every field is stripped before being stored. -/
def GitTag.make (name rev date : String) : GitTag :=
  ⟨pyStrip name, pyStrip rev, pyStrip date⟩

/-- A history object: a value of one of the two concrete subclasses of the
Python base class `GitObject`. -/
inductive GitObject where
  | ofCommit (c : GitCommit)
  | ofTag (t : GitTag)
deriving DecidableEq, Repr

/-- The `rev` attribute both concrete classes store on themselves. -/
def GitObject.rev : GitObject → String
  | .ofCommit c => c.rev
  | .ofTag t => t.rev

/-- A Python value as seen by `GitObject.__eq__`'s `other` parameter: either a
history object or some foreign value (string, integer, `None`, ...). -/
inductive PyValue where
  | gitObject (o : GitObject)
  | pyStr (s : String)
  | pyInt (n : Int)
  | pyNone
deriving DecidableEq, Repr

/-- `isinstance(other, GitObject)`. -/
def PyValue.isGitObject : PyValue → Bool
  | .gitObject _ => true
  | _ => false

/-- `GitObject.__eq__`: `False` unless `other` is a `GitObject`, else compare
the `rev` attributes. -/
def GitObject.eq (self : GitObject) (other : PyValue) : Bool :=
  match other with
  | .gitObject o => self.rev == o.rev
  | _ => false

/-- The default outer delimiter of `get_commits`. -/
def defaultDelimiter : String := "----------commit-delimiter----------"

/-- The loop body of `get_commits` over the chunks produced by splitting the
log output on the outer delimiter: strip each chunk, skip it when empty,
otherwise unpack `rev, title, *body_list = chunk.split("\n")` — which raises
(`none`) when the chunk has fewer than two lines — and build a `GitCommit`. -/
def getCommitsGo : List String → Option (List GitCommit)
  | [] => some []
  | ch :: rest =>
    if pyStrip ch = "" then getCommitsGo rest
    else
      match pySplit (pyStrip ch) "\n" with
      | rev :: title :: body_list =>
        (getCommitsGo rest).map
          (GitCommit.make (pyStrip rev) (pyStrip title)
            (pyStrip (pyJoin "\n" body_list)) :: ·)
      | _ => none

/-- `get_commits` (`git.py`), from the point where the process runner has
returned `c`: empty output gives `[]`; otherwise the output is split on the
outer delimiter and each chunk parsed by `getCommitsGo`.  `none` models an
uncaught exception. -/
def get_commits (delimiter : String) (c : Command) : Option (List GitCommit) :=
  if c.out = "" then some []
  else getCommitsGo (pySplit c.out delimiter)

/-- The inner delimiter hard-coded in `get_tags`. -/
def innerDelimiter : String := "---inner_delimiter---"

/-- The comprehension body of `get_tags`: `GitTag(*line.split(inner_delimiter))`
for each line — raising (`none`) unless the line splits into exactly three
fields. -/
def getTagsGo : List String → Option (List GitTag)
  | [] => some []
  | line :: rest =>
    match pySplit line innerDelimiter with
    | [name, rev, date] => (getTagsGo rest).map (GitTag.make name rev date :: ·)
    | _ => none

/-- `get_tags` (`git.py`), from the point where the process runner has returned
`c`: on error text or empty output return `[]`; otherwise split the output on
newline, drop the last element, and parse every remaining line. -/
def get_tags (c : Command) : Option (List GitTag) :=
  if c.err ≠ "" ∨ c.out = "" then some []
  else getTagsGo ((pySplit c.out "\n").dropLast)

/-- `tag_exist` (`git.py`): `tag in c.out`, Python's substring containment on
the raw output of `git tag --list {tag}`. -/
def tag_exist (tag : String) (c : Command) : Bool :=
  decide (tag.data <:+: c.out.data)

/-- `is_staging_clean` (`git.py`): `not (bool(c.out) or bool(c_cached.out))`
where `c` lists unstaged and `c_cached` staged changed files. -/
def is_staging_clean (c c_cached : Command) : Bool :=
  !(decide (c.out ≠ "") || decide (c_cached.out ≠ ""))

section SpecSide

/-- Spec-side mirror of claim C1's words for `get_commits`: split the output on
the outer delimiter, discard chunks that trim to empty, and build one record
per remaining chunk from its first line (trimmed), second line (trimmed) and
remaining lines (newline-joined, trimmed). -/
def getCommitsSpec (delimiter out : String) : List GitCommit :=
  if out = "" then []
  else
    (((pySplit out delimiter).map pyStrip).filter (fun c => c ≠ "")).map fun c =>
      let ls := pySplit c "\n"
      ⟨pyStrip (ls.headD ""), pyStrip (ls.getD 1 ""),
        pyStrip (pyJoin "\n" (ls.drop 2))⟩

/-- Spec-side mirror of claim C3's words for `get_tags`: on error or empty
output return empty; otherwise split on newline, drop the final element, and
turn each remaining line's three inner-delimited fields into a record, in line
order. -/
def getTagsSpec (c : Command) : List GitTag :=
  if c.err ≠ "" ∨ c.out = "" then []
  else
    ((pySplit c.out "\n").dropLast).map fun l =>
      let p := pySplit l innerDelimiter
      ⟨pyStrip (p.headD ""), pyStrip (p.getD 1 ""), pyStrip (p.getD 2 "")⟩

end SpecSide

/-! Embedding of `src/commitizen/cz/base.py`. -/

/-- A style table: a list of (role, style string) pairs, the value type that
`BaseCommitizen` stores under the `"style"` key. -/
abbrev StyleConfig := List (String × String)

/-- The shared Settings Object: a mapping from configuration keys to values.
Only the `"style"` key is read or written by the code under verification, so
values are modelled at the type actually stored there. -/
abbrev Settings := String → Option StyleConfig

/-- Python truthiness of `settings.get("style")`: `None` (missing key) and the
empty list are falsy, a non-empty list is truthy. -/
def pyTruthy : Option StyleConfig → Bool
  | none => false
  | some l => !l.isEmpty

/-- `dict.update({k: v})` restricted to one key. -/
def dictUpdate (s : Settings) (k : String) (v : StyleConfig) : Settings :=
  fun k' => if k' = k then some v else s k'

/-- `BaseCommitizen.default_style_config` (`base.py`). -/
def BaseCommitizen.default_style_config : StyleConfig :=
  [("qmark", "fg:#ff9d00 bold"),
   ("question", "bold"),
   ("answer", "fg:#ff9d00 bold"),
   ("pointer", "fg:#ff9d00 bold"),
   ("highlighted", "fg:#ff9d00 bold"),
   ("selected", "fg:#cc5454"),
   ("separator", "fg:#cc5454"),
   ("instruction", ""),
   ("text", ""),
   ("disabled", "fg:#858585 italic")]

/-- The effect of `BaseCommitizen.__init__` on the shared settings:
`if not self.config.settings.get("style"): settings.update({"style": default})`. -/
def BaseCommitizen.init (settings : Settings) : Settings :=
  if pyTruthy (settings "style") then settings
  else dictUpdate settings "style" BaseCommitizen.default_style_config

/-- A raised Python exception, by class: the `NotImplementedError` the default
optional capabilities raise, versus genuine parsing (`ValueError`) or I/O
(`OSError`) errors. -/
inductive PyExc where
  | notImplementedError (msg : String)
  | valueError (msg : String)
  | osError (msg : String)
deriving DecidableEq, Repr

/-- `isinstance(e, NotImplementedError)`: the discriminator that makes the
"not implemented" outcome distinguishable from other failures. -/
def PyExc.isNotImplemented : PyExc → Bool
  | .notImplementedError _ => true
  | _ => false

/-- `BaseCommitizen.example` (`base.py`): `raise NotImplementedError("Not Implemented yet")`. -/
def BaseCommitizen.example : Except PyExc String :=
  .error (.notImplementedError "Not Implemented yet")

/-- `BaseCommitizen.schema` (`base.py`): `raise NotImplementedError("Not Implemented yet")`. -/
def BaseCommitizen.schema : Except PyExc String :=
  .error (.notImplementedError "Not Implemented yet")

/-- `BaseCommitizen.schema_pattern` (`base.py`): `raise NotImplementedError("Not Implemented yet")`. -/
def BaseCommitizen.schema_pattern : Except PyExc String :=
  .error (.notImplementedError "Not Implemented yet")

/-- `BaseCommitizen.info` (`base.py`): `raise NotImplementedError("Not Implemented yet")`. -/
def BaseCommitizen.info : Except PyExc String :=
  .error (.notImplementedError "Not Implemented yet")

/-- `BaseCommitizen.process_commit` (`base.py`): `commit.split("\n")[0]`.
The split of any string is non-empty, so indexing at 0 is modelled by `headD`. -/
def BaseCommitizen.process_commit (commit : String) : String :=
  (pySplit commit "\n").headD ""

/-! Helper lemmas about `pyStrip`. -/

lemma pyStripCh_eq_rdrop (l : List Char) :
    pyStripCh l = List.rdropWhile isPySpace (l.dropWhile isPySpace) := rfl

lemma pyStripCh_idem (l : List Char) : pyStripCh (pyStripCh l) = pyStripCh l := by
  rw [pyStripCh_eq_rdrop, pyStripCh_eq_rdrop]
  have hx : (List.rdropWhile isPySpace (l.dropWhile isPySpace)).dropWhile isPySpace
      = List.rdropWhile isPySpace (l.dropWhile isPySpace) := by
    rcases hr : List.rdropWhile isPySpace (l.dropWhile isPySpace) with _ | ⟨a, t⟩
    · simp
    · obtain ⟨u, hu⟩ := List.rdropWhile_prefix isPySpace (l.dropWhile isPySpace)
      rw [hr] at hu
      have hmne : l.dropWhile isPySpace ≠ [] := by
        intro h
        rw [h] at hu
        simp at hu
      have hhead : (l.dropWhile isPySpace).head? = some a := by
        rw [← hu]
        simp
      have hfalse : isPySpace a = false := by
        have h0 := List.head?_dropWhile_not isPySpace l
        rw [hhead] at h0
        exact h0
      rw [List.dropWhile_cons, hfalse]
      simp
  rw [hx, List.rdropWhile_idempotent]

lemma pyStrip_idem (s : String) : pyStrip (pyStrip s) = pyStrip s := by
  show (⟨pyStripCh (pyStripCh s.data)⟩ : String) = ⟨pyStripCh s.data⟩
  rw [pyStripCh_idem]

/-! ### Claim C2 -/

/-- C2: any two history objects — commit or tag, in any combination — compare
equal exactly when their revision identities are equal; in particular a commit
and a tag with the same revision identity compare equal. -/
theorem gitObject_eq_iff_rev_eq :
    (∀ a b : GitObject, GitObject.eq a (.gitObject b) = true ↔ a.rev = b.rev) ∧
    (∀ (c : GitCommit) (t : GitTag),
      GitObject.eq (.ofCommit c) (.gitObject (.ofTag t)) = true ↔ c.rev = t.rev) := by
  constructor
  · intro a b
    simp [GitObject.eq]
  · intro c t
    simp [GitObject.eq, GitObject.rev]

/-! ### Claim C10 -/

/-- C10: comparing a history object with any value that is not a history object
returns `False`; no exception and no fallback to another notion of equality. -/
theorem gitObject_eq_foreign_false (self : GitObject) (v : PyValue)
    (h : v.isGitObject = false) : GitObject.eq self v = false := by
  cases v <;> simp_all [PyValue.isGitObject, GitObject.eq]

/-- Witness for C10 at a concrete commit and a concrete foreign string. -/
theorem gitObject_eq_foreign_false_witness :
    PyValue.isGitObject (.pyStr "abc123") = false ∧
    GitObject.eq (.ofCommit ⟨"abc123", "t", "b"⟩) (.pyStr "abc123") = false :=
  ⟨rfl, gitObject_eq_foreign_false _ _ rfl⟩

/-! ### Claim C7 -/

/-- C7: `is_staging_clean` returns `true` exactly when both diff listings have
empty output, and its value never depends on either command's error text or
exit status. -/
theorem is_staging_clean_iff_empty (c c_cached : Command) :
    (is_staging_clean c c_cached = true ↔ c.out = "" ∧ c_cached.out = "") ∧
    (∀ e e' r r',
      is_staging_clean ⟨c.out, e, r⟩ ⟨c_cached.out, e', r'⟩ = is_staging_clean c c_cached) := by
  constructor
  · simp [is_staging_clean]
  · intro e e' r r'
    rfl

/-! ### Claim C9 -/

/-- C9: each optional capability — `example`, `schema`, `schema_pattern`,
`info` — fails by default with the `NotImplementedError` outcome and nothing
else, and that outcome is distinguishable from a genuine parsing
(`ValueError`) or I/O (`OSError`) failure. -/
theorem optional_capabilities_not_implemented :
    BaseCommitizen.example = .error (.notImplementedError "Not Implemented yet") ∧
    BaseCommitizen.schema = .error (.notImplementedError "Not Implemented yet") ∧
    BaseCommitizen.schema_pattern = .error (.notImplementedError "Not Implemented yet") ∧
    BaseCommitizen.info = .error (.notImplementedError "Not Implemented yet") ∧
    (∀ msg, (PyExc.notImplementedError msg).isNotImplemented = true) ∧
    (∀ msg, (PyExc.valueError msg).isNotImplemented = false) ∧
    (∀ msg, (PyExc.osError msg).isNotImplemented = false) := by
  refine ⟨rfl, rfl, rfl, rfl, fun _ => rfl, fun _ => rfl, fun _ => rfl⟩

/-! ### Claim C6 -/

/-- Counterexample to C6 as stated: a Settings Object that already contains a
`"style"` entry — the empty style table — is nevertheless overwritten at
construction, because the code tests truthiness of the entry, not its
presence. -/
theorem style_overwritten_despite_entry :
    ((dictUpdate (fun _ => none) "style" []) "style").isSome = true ∧
    decide (BaseCommitizen.init (dictUpdate (fun _ => none) "style" []) "style"
        = (dictUpdate (fun _ => none) "style" []) "style") = false := by
  constructor
  · rfl
  · rfl

/-- C6 (amended): plugin construction writes the default style table into the
Settings Object exactly when the `"style"` entry is absent or falsy (empty);
no other key is touched, and the write is idempotent — a second construction
against the same object never changes it again, since the default table is
non-empty. -/
theorem style_default_write_amended (s : Settings) :
    (pyTruthy (s "style") = true → BaseCommitizen.init s = s) ∧
    (pyTruthy (s "style") = false →
      BaseCommitizen.init s "style" = some BaseCommitizen.default_style_config ∧
      ∀ k, k ≠ "style" → BaseCommitizen.init s k = s k) ∧
    BaseCommitizen.init (BaseCommitizen.init s) = BaseCommitizen.init s := by
  refine ⟨?_, ?_, ?_⟩
  · intro h
    simp [BaseCommitizen.init, h]
  · intro h
    constructor
    · simp [BaseCommitizen.init, h, dictUpdate]
    · intro k hk
      simp [BaseCommitizen.init, h, dictUpdate, hk]
  · by_cases h : pyTruthy (s "style") = true
    · simp [BaseCommitizen.init, h]
    · have h' : pyTruthy (s "style") = false := by simpa using h
      have h1 : BaseCommitizen.init s
          = dictUpdate s "style" BaseCommitizen.default_style_config := by
        simp [BaseCommitizen.init, h']
      have h2 : pyTruthy
          ((dictUpdate s "style" BaseCommitizen.default_style_config) "style") = true := by
        simp [dictUpdate, pyTruthy, BaseCommitizen.default_style_config]
      rw [h1]
      simp [BaseCommitizen.init, h2]

/-- Witness for the amended C6 at the empty Settings Object. -/
theorem style_default_write_amended_witness :
    BaseCommitizen.init (fun _ => none) "style"
      = some BaseCommitizen.default_style_config ∧
    BaseCommitizen.init (fun _ => none) "klass" = (fun _ => none : Settings) "klass" :=
  ⟨(((style_default_write_amended (fun _ => none)).2.1) rfl).1,
   (((style_default_write_amended (fun _ => none)).2.1) rfl).2 "klass" (by decide)⟩

/-! ### Claim C1 -/

/-- The chunk loop of `get_commits` agrees with the spec-side per-chunk
description whenever every chunk either trims to empty (and is skipped) or has
at least two lines. -/
lemma getCommitsGo_spec (L : List String)
    (h : ∀ ch ∈ L, pyStrip ch = "" ∨ 2 ≤ (pySplit (pyStrip ch) "\n").length) :
    getCommitsGo L = some (((L.map pyStrip).filter (fun c => c ≠ "")).map fun c =>
      let ls := pySplit c "\n"
      (⟨pyStrip (ls.headD ""), pyStrip (ls.getD 1 ""),
        pyStrip (pyJoin "\n" (ls.drop 2))⟩ : GitCommit)) := by
  induction L with
  | nil => rfl
  | cons ch rest ih =>
    have hch := h ch (List.mem_cons_self ch rest)
    have hrest := fun x hx => h x (List.mem_cons_of_mem ch hx)
    by_cases hc : pyStrip ch = ""
    · simp only [getCommitsGo, if_pos hc, List.map_cons, List.filter_cons,
        ih hrest]
      simp [hc]
    · have hlen : 2 ≤ (pySplit (pyStrip ch) "\n").length := hch.resolve_left hc
      obtain ⟨l1, l2, ls, hsplit⟩ :
          ∃ l1 l2 ls, pySplit (pyStrip ch) "\n" = l1 :: l2 :: ls := by
        rcases hs : pySplit (pyStrip ch) "\n" with _ | ⟨a, _ | ⟨b, t⟩⟩
        · rw [hs] at hlen
          simp at hlen
        · rw [hs] at hlen
          simp at hlen
        · exact ⟨a, b, t, rfl⟩
      simp only [getCommitsGo, if_neg hc, hsplit, ih hrest, Option.map_some',
        List.map_cons, List.filter_cons]
      simp only [hc, decide_not, ite_not]
      simp [GitCommit.make, hsplit, pyStrip_idem]

/-- C1: on empty log output `get_commits` returns the empty list; on any
well-formed output (every chunk trims to empty or has at least two lines) it
returns exactly the records described by the claim: split on the outer
delimiter, discard chunks trimming to empty, and map each remaining chunk to
(first line trimmed, second line trimmed, remaining lines joined and trimmed),
in chunk order. -/
theorem get_commits_parses_wellformed (delimiter : String) (c : Command)
    (h : ∀ ch ∈ pySplit c.out delimiter,
      pyStrip ch = "" ∨ 2 ≤ (pySplit (pyStrip ch) "\n").length) :
    (c.out = "" → get_commits delimiter c = some []) ∧
    get_commits delimiter c = some (getCommitsSpec delimiter c.out) := by
  constructor
  · intro hout
    simp [get_commits, hout]
  · by_cases hout : c.out = ""
    · simp [get_commits, getCommitsSpec, hout]
    · unfold get_commits getCommitsSpec
      rw [if_neg hout, if_neg hout, getCommitsGo_spec _ h]

/-- Witness for C1 on a concrete two-commit log output. -/
theorem get_commits_parses_wellformed_witness :
    get_commits "-D-" ⟨" abc \ntitle one\nb1\nb2-D-\ndef\ntitle two\n", "", 0⟩
      = some (getCommitsSpec "-D-" " abc \ntitle one\nb1\nb2-D-\ndef\ntitle two\n") :=
  (get_commits_parses_wellformed "-D-"
    ⟨" abc \ntitle one\nb1\nb2-D-\ndef\ntitle two\n", "", 0⟩ (by decide)).2

/-! ### Claim C3 -/

/-- The line loop of `get_tags` agrees with the spec-side description whenever
every line splits into exactly three inner-delimited fields. -/
lemma getTagsGo_spec (L : List String)
    (h : ∀ line ∈ L, (pySplit line innerDelimiter).length = 3) :
    getTagsGo L = some (L.map fun l =>
      let p := pySplit l innerDelimiter
      (⟨pyStrip (p.headD ""), pyStrip (p.getD 1 ""), pyStrip (p.getD 2 "")⟩ : GitTag)) := by
  induction L with
  | nil => rfl
  | cons line rest ih =>
    obtain ⟨a, b, d, hsplit⟩ :=
      List.length_eq_three.mp (h line (List.mem_cons_self line rest))
    simp only [getTagsGo, hsplit, ih (fun x hx => h x (List.mem_cons_of_mem line hx)),
      Option.map_some', List.map_cons]
    simp [GitTag.make, hsplit]

/-- C3: on an error or empty output `get_tags` returns the empty list;
otherwise, whenever every retained line splits into exactly three fields, it
returns exactly the records described by the claim — split on newline, drop
the final element, build one record per remaining line from its three
inner-delimited fields (name, revision, date), in line order. -/
theorem get_tags_parses_wellformed (c : Command)
    (h : ∀ line ∈ (pySplit c.out "\n").dropLast,
      (pySplit line innerDelimiter).length = 3) :
    (c.err ≠ "" ∨ c.out = "" → get_tags c = some []) ∧
    get_tags c = some (getTagsSpec c) := by
  constructor
  · intro herr
    simp [get_tags, herr]
  · by_cases herr : c.err ≠ "" ∨ c.out = ""
    · simp [get_tags, getTagsSpec, herr]
    · unfold get_tags getTagsSpec
      rw [if_neg herr, if_neg herr, getTagsGo_spec _ h]

set_option maxRecDepth 8192 in
/-- Witness for C3 on the spec's own two-tag example output (and, for the
first part, on an erroring command). -/
theorem get_tags_parses_wellformed_witness :
    get_tags ⟨"x", "fatal: not a git repository", 128⟩ = some [] ∧
    get_tags ⟨"v1.0.0---inner_delimiter---abc123---inner_delimiter---2023-01-01\nv0.9.0---inner_delimiter---def456---inner_delimiter---2022-12-01\n", "", 0⟩
      = some (getTagsSpec ⟨"v1.0.0---inner_delimiter---abc123---inner_delimiter---2023-01-01\nv0.9.0---inner_delimiter---def456---inner_delimiter---2022-12-01\n", "", 0⟩) :=
  ⟨(get_tags_parses_wellformed ⟨"x", "fatal: not a git repository", 128⟩
      (by decide)).1 (by decide),
   (get_tags_parses_wellformed _ (by decide)).2⟩

/-! ### Claim C4 -/

/-- The chunk loop of `get_commits` fails exactly when some chunk trims to a
non-empty string with fewer than two lines; chunks trimming to empty never
cause failure. -/
lemma getCommitsGo_none_iff (L : List String) :
    getCommitsGo L = none ↔
      ∃ ch ∈ L, pyStrip ch ≠ "" ∧ (pySplit (pyStrip ch) "\n").length < 2 := by
  induction L with
  | nil => simp [getCommitsGo]
  | cons ch rest ih =>
    by_cases hc : pyStrip ch = ""
    · simp only [getCommitsGo, if_pos hc, ih]
      constructor
      · rintro ⟨x, hx, h1, h2⟩
        exact ⟨x, List.mem_cons_of_mem ch hx, h1, h2⟩
      · rintro ⟨x, hx, h1, h2⟩
        rcases List.mem_cons.mp hx with rfl | hx'
        · exact absurd hc h1
        · exact ⟨x, hx', h1, h2⟩
    · rcases hs : pySplit (pyStrip ch) "\n" with _ | ⟨l1, _ | ⟨l2, ls⟩⟩
      · simp only [getCommitsGo, if_neg hc, hs]
        constructor
        · intro _
          exact ⟨ch, List.mem_cons_self ch rest, hc, by rw [hs]; simp⟩
        · intro _
          trivial
      · simp only [getCommitsGo, if_neg hc, hs]
        constructor
        · intro _
          exact ⟨ch, List.mem_cons_self ch rest, hc, by rw [hs]; simp⟩
        · intro _
          trivial
      · simp only [getCommitsGo, if_neg hc, hs, Option.map_eq_none', ih]
        constructor
        · rintro ⟨x, hx, h1, h2⟩
          exact ⟨x, List.mem_cons_of_mem ch hx, h1, h2⟩
        · rintro ⟨x, hx, h1, h2⟩
          rcases List.mem_cons.mp hx with rfl | hx'
          · rw [hs] at h2
            simp at h2
            omega
          · exact ⟨x, hx', h1, h2⟩

/-- The line loop of `get_tags` fails exactly when some line does not split
into exactly three inner-delimited fields. -/
lemma getTagsGo_none_iff (L : List String) :
    getTagsGo L = none ↔ ∃ line ∈ L, (pySplit line innerDelimiter).length ≠ 3 := by
  induction L with
  | nil => simp [getTagsGo]
  | cons line rest ih =>
    rcases hs : pySplit line innerDelimiter with _ | ⟨a, _ | ⟨b, _ | ⟨d, _ | ⟨e, t⟩⟩⟩⟩
    case nil =>
      simp only [getTagsGo, hs]
      constructor
      · intro _
        exact ⟨line, List.mem_cons_self line rest, by rw [hs]; simp⟩
      · intro _
        trivial
    case cons.nil =>
      simp only [getTagsGo, hs]
      constructor
      · intro _
        exact ⟨line, List.mem_cons_self line rest, by rw [hs]; simp⟩
      · intro _
        trivial
    case cons.cons.nil =>
      simp only [getTagsGo, hs]
      constructor
      · intro _
        exact ⟨line, List.mem_cons_self line rest, by rw [hs]; simp⟩
      · intro _
        trivial
    case cons.cons.cons.nil =>
      simp only [getTagsGo, hs, Option.map_eq_none', ih]
      constructor
      · rintro ⟨x, hx, h1⟩
        exact ⟨x, List.mem_cons_of_mem line hx, h1⟩
      · rintro ⟨x, hx, h1⟩
        rcases List.mem_cons.mp hx with rfl | hx'
        · rw [hs] at h1
          simp at h1
        · exact ⟨x, hx', h1⟩
    case cons.cons.cons.cons =>
      simp only [getTagsGo, hs]
      constructor
      · intro _
        exact ⟨line, List.mem_cons_self line rest, by rw [hs]; simp⟩
      · intro _
        trivial

/-- Counterexample to C4 as stated: a single-line chunk makes `get_commits`
raise (modelled as `none`) instead of being skipped, and a two-field line
makes `get_tags` raise instead of being skipped. -/
theorem history_parsing_raises_counterexample :
    get_commits defaultDelimiter ⟨"abc", "", 0⟩ = none ∧
    get_tags ⟨"v1.0.0---inner_delimiter---abc123\n", "", 0⟩ = none := by
  constructor
  · rfl
  · rfl

/-- C4 (amended): `get_commits` and `get_tags` are lenient only towards chunks
that trim to empty (skipped) and the error/empty early returns; they are not
total: `get_commits` raises exactly when some chunk trims to a non-empty
string with fewer than two lines, and `get_tags` raises exactly when it is
past its early return and some retained line does not split into exactly
three fields. -/
theorem history_parsing_not_total :
    (∀ delimiter c, get_commits delimiter c = none ↔
      c.out ≠ "" ∧ ∃ ch ∈ pySplit c.out delimiter,
        pyStrip ch ≠ "" ∧ (pySplit (pyStrip ch) "\n").length < 2) ∧
    (∀ c : Command, get_tags c = none ↔
      ¬(c.err ≠ "" ∨ c.out = "") ∧ ∃ line ∈ (pySplit c.out "\n").dropLast,
        (pySplit line innerDelimiter).length ≠ 3) := by
  constructor
  · intro delimiter c
    by_cases hout : c.out = "" <;>
      simp [get_commits, hout, getCommitsGo_none_iff]
  · intro c
    by_cases herr : c.err ≠ "" ∨ c.out = "" <;>
      simp [get_tags, herr, getTagsGo_none_iff]

/-! Structural lemmas about `pySplitChAux`. -/

/-- The split result is never empty, and its first piece is a prefix of the
input. -/
lemma pySplitChAux_head_pre (sep : List Char) :
    ∀ (fuel : Nat) (l : List Char),
      ∃ p ps, pySplitChAux sep l fuel = p :: ps ∧ p <+: l := by
  intro fuel
  induction fuel with
  | zero =>
    intro l
    cases l with
    | nil => exact ⟨[], [], rfl, List.nil_prefix⟩
    | cons x xs => exact ⟨x :: xs, [], rfl, List.prefix_refl _⟩
  | succ f ih =>
    intro l
    cases l with
    | nil => exact ⟨[], [], rfl, List.nil_prefix⟩
    | cons x xs =>
      by_cases hg : sep.isPrefixOf (x :: xs) = true
      · refine ⟨[], pySplitChAux sep ((x :: xs).drop sep.length) f, ?_, List.nil_prefix⟩
        simp only [pySplitChAux, if_pos hg]
      · obtain ⟨p, ps, he, hpre⟩ := ih xs
        refine ⟨x :: p, ps, ?_, List.cons_prefix_cons.mpr ⟨rfl, hpre⟩⟩
        simp only [pySplitChAux, if_neg hg, he]

/-- Every piece of the split is a contiguous substring of the input. -/
lemma pySplitChAux_mem_infix (sep : List Char) :
    ∀ (fuel : Nat) (l p : List Char),
      p ∈ pySplitChAux sep l fuel → p <:+: l := by
  intro fuel
  induction fuel with
  | zero =>
    intro l p hp
    cases l with
    | nil =>
      simp only [pySplitChAux, List.mem_singleton] at hp
      simp [hp]
    | cons x xs =>
      simp only [pySplitChAux, List.mem_singleton] at hp
      simp [hp]
  | succ f ih =>
    intro l p hp
    cases l with
    | nil =>
      simp only [pySplitChAux, List.mem_singleton] at hp
      simp [hp]
    | cons x xs =>
      by_cases hg : sep.isPrefixOf (x :: xs) = true
      · rw [show pySplitChAux sep (x :: xs) (f+1)
            = [] :: pySplitChAux sep ((x :: xs).drop sep.length) f from by
          simp only [pySplitChAux, if_pos hg]] at hp
        rcases List.mem_cons.mp hp with rfl | hrec
        · exact List.nil_infix
        · exact (ih _ p hrec).trans (List.drop_suffix _ _).isInfix
      · obtain ⟨q, qs, he, hqpre⟩ := pySplitChAux_head_pre sep f xs
        rw [show pySplitChAux sep (x :: xs) (f+1) = (x :: q) :: qs from by
          simp only [pySplitChAux, if_neg hg, he]] at hp
        rcases List.mem_cons.mp hp with rfl | htl
        · exact (List.cons_prefix_cons.mpr ⟨rfl, hqpre⟩).isInfix
        · have hmem : p ∈ pySplitChAux sep xs f := by
            rw [he]
            exact List.mem_cons_of_mem _ htl
          exact List.infix_cons (ih xs p hmem)

/-- Splitting on a single character that does not occur returns the whole
input as the only piece. -/
lemma pySplitChAux_single_no_occ (c : Char) :
    ∀ (l : List Char) (fuel : Nat), l.length ≤ fuel → c ∉ l →
      pySplitChAux [c] l fuel = [l] := by
  intro l
  induction l with
  | nil =>
    intro fuel _ _
    cases fuel <;> rfl
  | cons x xs ih =>
    intro fuel hlen hmem
    cases fuel with
    | zero => simp at hlen
    | succ f =>
      have hne : c ≠ x := fun h => hmem (h ▸ List.mem_cons_self x xs)
      have hx : ¬([c].isPrefixOf (x :: xs) = true) := by
        simp [List.isPrefixOf, hne]
      have hxs : pySplitChAux [c] xs f = [xs] :=
        ih f (by simp at hlen; omega) (fun h => hmem (List.mem_cons_of_mem x h))
      simp only [pySplitChAux, if_neg hx, hxs]

/-- Splitting on a single character: the first piece is everything before its
first occurrence. -/
lemma pySplitChAux_single_head (c : Char) :
    ∀ (a : List Char) (fuel : Nat) (b : List Char),
      a.length + 1 + b.length ≤ fuel → c ∉ a →
      (pySplitChAux [c] (a ++ c :: b) fuel).head? = some a := by
  intro a
  induction a with
  | nil =>
    intro fuel b hlen _
    cases fuel with
    | zero => simp at hlen
    | succ f =>
      have hx : [c].isPrefixOf (c :: b) = true := by
        simp [List.isPrefixOf]
      rw [List.nil_append]
      simp only [pySplitChAux, if_pos hx]
      rfl
  | cons x a' ih =>
    intro fuel b hlen hmem
    cases fuel with
    | zero => simp at hlen
    | succ f =>
      have hne : c ≠ x := fun h => hmem (h ▸ List.mem_cons_self x a')
      have hx : ¬([c].isPrefixOf (x :: (a' ++ c :: b)) = true) := by
        simp [List.isPrefixOf, hne]
      have hr := ih f b (by simp at hlen ⊢; omega)
        (fun h => hmem (List.mem_cons_of_mem x h))
      obtain ⟨ps, hps⟩ : ∃ ps, pySplitChAux [c] (a' ++ c :: b) f = a' :: ps := by
        rcases hq : pySplitChAux [c] (a' ++ c :: b) f with _ | ⟨q, qs⟩
        · rw [hq] at hr
          simp at hr
        · rw [hq] at hr
          simp only [List.head?_cons, Option.some.injEq] at hr
          exact ⟨qs, by rw [hr]⟩
      rw [List.cons_append]
      simp only [pySplitChAux, if_neg hx, hps]
      rfl

/-! ### Claim C8 -/

/-- C8: the default `process_commit` returns exactly the first line of its
input — the whole string when it contains no newline, and the prefix before
the first newline otherwise (any input with a newline is `a ++ "\n" ++ b`
with `a` newline-free). -/
theorem process_commit_returns_first_line (a b : String) (h : '\n' ∉ a.data) :
    BaseCommitizen.process_commit a = a ∧
    BaseCommitizen.process_commit (a ++ "\n" ++ b) = a := by
  constructor
  · unfold BaseCommitizen.process_commit pySplit
    rw [if_neg (by decide), show ("\n" : String).data = ['\n'] from rfl,
      pySplitChAux_single_no_occ '\n' a.data a.data.length (Nat.le_refl _) h]
    rfl
  · unfold BaseCommitizen.process_commit pySplit
    rw [if_neg (by decide), show ("\n" : String).data = ['\n'] from rfl]
    have hdata : (a ++ "\n" ++ b).data = a.data ++ '\n' :: b.data := by
      simp [String.data_append]
    rw [hdata]
    have hh := pySplitChAux_single_head '\n' a.data
      ((a.data ++ '\n' :: b.data).length) b.data (by simp; omega) h
    obtain ⟨ps, hps⟩ : ∃ ps,
        pySplitChAux ['\n'] (a.data ++ '\n' :: b.data)
          ((a.data ++ '\n' :: b.data).length) = a.data :: ps := by
      rcases hq : pySplitChAux ['\n'] (a.data ++ '\n' :: b.data)
          ((a.data ++ '\n' :: b.data).length) with _ | ⟨q, qs⟩
      · rw [hq] at hh
        simp at hh
      · rw [hq] at hh
        simp only [List.head?_cons, Option.some.injEq] at hh
        exact ⟨qs, by rw [hh]⟩
    rw [hps]
    rfl

/-- Witness for C8 on a concrete two-line commit message. -/
theorem process_commit_returns_first_line_witness :
    BaseCommitizen.process_commit "fix: bug" = "fix: bug" ∧
    BaseCommitizen.process_commit ("fix: bug" ++ "\n" ++ "details") = "fix: bug" :=
  process_commit_returns_first_line "fix: bug" "details" (by decide)

/-! ### Claim C5 -/

/-- Counterexample to C5 as stated: on listing output `"v1.0.0-beta"`, the
name `"v1.0.0"` is not a listed entry (not one of the output's lines), yet
`tag_exist` reports it as existing, because the code only tests substring
containment on the raw output. -/
theorem tag_exist_substring_counterexample :
    tag_exist "v1.0.0" ⟨"v1.0.0-beta", "", 0⟩ = true ∧
    decide (("v1.0.0" : String) ∈ pySplit "v1.0.0-beta" "\n") = false := by
  constructor
  · decide
  · decide

/-- C5 (amended): `tag_exist(n)` returns true exactly when `n` occurs as a
contiguous substring of the listing output; in particular every listed entry
(every line of the output) is reported as existing, but so is any substring
of another entry. -/
theorem tag_exist_iff_substring (tag : String) (c : Command) :
    (tag_exist tag c = true ↔ tag.data <:+: c.out.data) ∧
    (tag ∈ pySplit c.out "\n" → tag_exist tag c = true) := by
  have h1 : tag_exist tag c = true ↔ tag.data <:+: c.out.data := by
    simp [tag_exist]
  refine ⟨h1, fun hmem => ?_⟩
  rw [h1]
  unfold pySplit at hmem
  rw [if_neg (by decide), show ("\n" : String).data = ['\n'] from rfl] at hmem
  obtain ⟨l, hl, hlk⟩ := List.mem_map.mp hmem
  subst hlk
  exact pySplitChAux_mem_infix ['\n'] c.out.data.length c.out.data l hl

/-- Witness for the amended C5: a listed entry is reported as existing. -/
theorem tag_exist_iff_substring_witness :
    tag_exist "v1.0.0" ⟨"v1.0.0\nv0.9.0", "", 0⟩ = true :=
  (tag_exist_iff_substring "v1.0.0" ⟨"v1.0.0\nv0.9.0", "", 0⟩).2 (by decide)
